import Mathlib

/-
Verification of the mana-feasibility engine (isCastable.py).

The file embeds the source shallowly:
* `buildCastsArray`, `tapsFor` — the compatibility matrix builder and predicate;
* `constraintA`, `constraintB`, `buildCustomConstraints`, `buildSATInstance` —
  the clause families of the SAT reduction (class ManaToSAT);
* `getSets`, `getResult` — the string-based SDR search (class ManaToSetSolver);
* `deriveLands` — the model extractor.
Python expressions that can raise IndexError (`arr[0]`, `sets[0]`,
`str(clause)[1]`) are embedded with `Option`, `none` standing for the raised
exception.  The external SAT solver (pycosat) is modelled by propositional
satisfiability of the clause list, and a returned model by the list of signed
literals of the instance's variables under a valuation `v : Nat → Bool`.
-/

/- Mana symbols are compared by equality; we use strings ("W", "B", "R", "1"). -/
abbrev ManaSymbol := String

/- A land is the list of symbols it can tap for. -/
abbrev Land := List ManaSymbol

/- def tapsFor(land, mana): returns True if `mana in land` or `mana == '1'`,
otherwise falls through returning None (falsy). We keep the truth value. -/
def tapsFor (land : Land) (mana : ManaSymbol) : Bool :=
  if mana ∈ land then true
  else if mana = "1" then true
  else false

/- HelperMethods.buildCastsArray: one row per land, one column per cost symbol,
entry 1 when the land taps for the symbol, else 0. -/
def buildCastsArray (lands : List Land) (cost : List ManaSymbol) : List (List Nat) :=
  lands.map (fun land => cost.map (fun c => if tapsFor land c then 1 else 0))

/- Decimal digits of n, least significant first (empty for 0); fuel-structured
so that it computes by `rfl`/`decide`. -/
def decDigitsAux : Nat → Nat → List Nat
  | 0, _ => []
  | fuel + 1, n => if n = 0 then [] else n % 10 :: decDigitsAux fuel (n / 10)

/- The decimal string str(n) of a natural number, as its digit list, most
significant first ("0" for 0). -/
def natStr (n : Nat) : List Nat :=
  if n = 0 then [0] else (decDigitsAux n n).reverse

/- Decimal concatenation: int(str(a) + str(b)). -/
def catDec (a b : Nat) : Nat := a * 10 ^ (natStr b).length + b

/- The SAT variable id int("1{}{}".format(land, mana)). -/
def satVar (land mana : Nat) : Nat := catDec (catDec 1 land) mana

/- ManaToSAT.constraintA: for each column, the clause listing the variable of
EVERY land at that column (the code does not consult the matrix here).
`arr[0]` raises IndexError on an empty matrix, hence `Option`. -/
def constraintA (arr : List (List Nat)) : Option (List (List Int)) :=
  match arr with
  | [] => none
  | r0 :: rest =>
    some ((List.range r0.length).map (fun col =>
      (List.range (r0 :: rest).length).map (fun land => (satVar land col : Int))))

/- ManaToSAT.constraintB: for each land and each ordered pair of columns
mana < i, the clause ¬x(land,mana) ∨ ¬x(land,i).  The `if i != mana` guard of
the source is kept (it is vacuously true on range(mana+1, …)).  When the matrix
is empty the outer loop is empty and `len(arr[0])` is never evaluated. -/
def constraintB (arr : List (List Nat)) : List (List Int) :=
  (List.range arr.length).flatMap (fun land =>
    (List.range (arr.headD []).length).flatMap (fun mana =>
      (List.range' (mana + 1) ((arr.headD []).length - (mana + 1))).filterMap (fun i =>
        if i = mana then none
        else some [-(satVar land mana : Int), -(satVar land i : Int)])))

/- ManaToSAT.buildCustomConstraints: for each land, the clause of its
compatible columns, skipped when empty.  Rows produced by buildCastsArray are
rectangular, so `arr[land][mana]` is in range and is embedded with getD. -/
def buildCustomConstraints (arr : List (List Nat)) : List (List Int) :=
  (List.range arr.length).filterMap (fun land =>
    let clause := (List.range (arr.headD []).length).filterMap (fun mana =>
      if (arr.getD land []).getD mana 0 = 1 then some (satVar land mana : Int) else none)
    if clause = [] then none else some clause)

/- ManaToSAT.buildSATInstance: A then B then custom clauses. -/
def buildSATInstance (arr : List (List Nat)) : Option (List (List Int)) :=
  (constraintA arr).map (fun ca => ca ++ constraintB arr ++ buildCustomConstraints arr)

/- A signed literal is satisfied by a valuation of the variable ids. -/
def litSat (v : Nat → Bool) (l : Int) : Bool :=
  if 0 < l then v l.toNat else !(v (-l).toNat)

def clauseSat (v : Nat → Bool) (c : List Int) : Bool := c.any (litSat v)

def cnfSat (v : Nat → Bool) (cs : List (List Int)) : Bool := cs.all (clauseSat v)

/- pycosat.solve(SAT) returns a model exactly when the clause set is
satisfiable. -/
def satisfiable (cs : List (List Int)) : Prop := ∃ v, cnfSat v cs = true

/- The clause set built by ManaToSAT.__init__ (None when building raises). -/
def satInstance (lands : List Land) (cost : List ManaSymbol) : Option (List (List Int)) :=
  buildSATInstance (buildCastsArray lands cost)

/- def isCastable(lands, cost): True iff pycosat's answer is not "UNSAT";
none models the IndexError escaping from constraintA. -/
def isCastable (lands : List Land) (cost : List ManaSymbol) : Option Prop :=
  (satInstance lands cost).map satisfiable

/- isCastable(lands, cost) terminates normally and returns True. -/
def isCastableTrue (lands : List Land) (cost : List ManaSymbol) : Prop :=
  ∃ cs, satInstance lands cost = some cs ∧ satisfiable cs

/- `leadsWith small big`: small is an initial run of big (Python str startswith,
used to define substring containment). -/
def leadsWith : List Nat → List Nat → Bool
  | [], _ => true
  | _ :: _, [] => false
  | a :: as, b :: bs => a == b && leadsWith as bs

/- `hasSubstr small big`: Python `small in big` on digit strings. -/
def hasSubstr (small : List Nat) : List Nat → Bool
  | [] => small.isEmpty
  | b :: bs => leadsWith small (b :: bs) || hasSubstr small bs

/- ManaToSetSolver.getSets: per column, the list of rows holding a 1; indexes
`arr[0]`, hence `Option`. -/
def getSets (arr : List (List Nat)) : Option (List (List Nat)) :=
  match arr with
  | [] => none
  | r0 :: rest =>
    some ((List.range r0.length).map (fun col =>
      (List.range (r0 :: rest).length).filterMap (fun row =>
        if ((r0 :: rest).getD row []).getD col 0 = 1 then some row else none)))

/- ManaToSetSolver.getResult: the string-concatenation search.  Strings are
digit lists; each layer extends every string of the layer-start snapshot by
each candidate whose digits do not already occur as a substring.  `sets[0]`
raises IndexError on an empty set list, hence `Option`. -/
def getResult (sets : List (List Nat)) (costTotal : Nat) : Option Bool :=
  match sets with
  | [] => none
  | s0 :: rest =>
    let solutions := rest.foldl
      (fun sols layer =>
        sols ++ layer.flatMap (fun i =>
          sols.filterMap (fun thing =>
            if hasSubstr (natStr i) thing then none
            else some (thing ++ natStr i))))
      (s0.map natStr)
    some (solutions.any (fun thing => thing.length = costTotal))

/- ManaToSetSolver.__init__: build the matrix, the column sets, then search;
`.sol` is the boolean outcome, none when an IndexError is raised. -/
def manaToSetSolverSol (lands : List Land) (cost : List ManaSymbol) : Option Bool :=
  (getSets (buildCastsArray lands cost)).bind (fun sets => getResult sets cost.length)

/- Python dict assignment retDict[k] = v: overwrite in place, append when new. -/
def dictSet (d : List (Nat × Nat)) (k v : Nat) : List (Nat × Nat) :=
  if d.any (fun p => p.1 == k) then d.map (fun p => if p.1 == k then (k, v) else p)
  else d ++ [(k, v)]

/- def deriveLands(lands, cost, sol): keep the positive literals, read the
land index from str(clause)[1] and the mana index from str(clause)[2], and
store land → mana in a dict.  The character accesses can raise IndexError on
short ids, hence `Option`. -/
def deriveLands (lands : List Land) (cost : List ManaSymbol) (sol : List Int) :
    Option (List (Nat × Nat)) :=
  (sol.filter (fun i => decide (0 < i))).foldl
    (fun od c =>
      od.bind (fun d =>
        ((natStr c.toNat).get? 1).bind (fun land =>
          ((natStr c.toNat).get? 2).map (fun mana => dictSet d land mana))))
    (some [])

/- The list of signed literals a SAT model assigns to the instance's variables
x(land, mana), land < numLands, mana < numCost, in index order. -/
def modelList (numLands numCost : Nat) (v : Nat → Bool) : List Int :=
  (List.range numLands).flatMap (fun l =>
    (List.range numCost).map (fun m =>
      if v (satVar l m) then (satVar l m : Int) else -(satVar l m : Int)))

/- The (land, mana) pairs whose variable is true under v, in index order. -/
def truePairs (numLands numCost : Nat) (v : Nat → Bool) : List (Nat × Nat) :=
  (List.range numLands).flatMap (fun l =>
    (List.range numCost).filterMap (fun m =>
      if v (satVar l m) then some (l, m) else none))

/- No two entries of the dictionary share a key. -/
def keysDistinct : List (Nat × Nat) → Bool
  | [] => true
  | p :: ps => (!ps.any (fun q => q.1 == p.1)) && keysDistinct ps

/- Every entry whose land taps for at least one cost symbol is mapped to a
position it taps for. -/
def compatOK (lands : List Land) (cost : List ManaSymbol) (d : List (Nat × Nat)) : Bool :=
  d.all (fun p =>
    (!(cost.any (fun c => tapsFor (lands.getD p.1 []) c))) ||
      tapsFor (lands.getD p.1 []) (cost.getD p.2 ""))

/- Under v, each land index has at most one true variable. -/
def atMostOnePerLand (numLands numCost : Nat) (v : Nat → Bool) : Bool :=
  (List.range numLands).all (fun l =>
    decide (((List.range numCost).filter (fun m => v (satVar l m))).length ≤ 1))

/- The valuation making exactly variable 100 true. -/
def v100 : Nat → Bool := fun n => n == 100

/- The valuation making exactly variables 100 and 110 true. -/
def vShare : Nat → Bool := fun n => n == 100 || n == 110

/- The coverage family: constraintA's clauses for a matrix with numLands rows
and numCost columns. -/
def coverage (numLands numCost : Nat) : List (List Int) :=
  (List.range numCost).map (fun col =>
    (List.range numLands).map (fun land => (satVar land col : Int)))

/- constraintB's clauses for one land. -/
def exclRow (land numCost : Nat) : List (List Int) :=
  (List.range numCost).flatMap (fun mana =>
    (List.range' (mana + 1) (numCost - (mana + 1))).filterMap (fun i =>
      if i = mana then none
      else some [-(satVar land mana : Int), -(satVar land i : Int)]))

/- The exclusivity family: constraintB's clauses. -/
def exclusivity (numLands numCost : Nat) : List (List Int) :=
  (List.range numLands).flatMap (fun land => exclRow land numCost)

/- buildCustomConstraints' clause for one land (possibly empty). -/
def customRow (arr : List (List Nat)) (land numCost : Nat) : List Int :=
  (List.range numCost).filterMap (fun mana =>
    if (arr.getD land []).getD mana 0 = 1 then some (satVar land mana : Int) else none)

/- The custom family: buildCustomConstraints' clauses. -/
def customFam (arr : List (List Nat)) (numLands numCost : Nat) : List (List Int) :=
  (List.range numLands).filterMap (fun land =>
    if customRow arr land numCost = [] then none else some (customRow arr land numCost))

theorem satVar_lt10 : ∀ l < 10, ∀ m < 10, satVar l m = 100 + 10 * l + m := by decide

theorem natStr_satVar : ∀ l < 10, ∀ m < 10, natStr (satVar l m) = [1, l, m] := by decide

theorem satVar_ub (l m L : Nat) (hl : l < L) (hL : L ≤ 10) (hm : m < 10) :
    satVar l m < 100 + 10 * L := by
  rw [satVar_lt10 l (lt_of_lt_of_le hl hL) m hm]; omega

theorem satVar_lb (L m : Nat) (hL : L < 10) (hm : m < 10) :
    100 + 10 * L ≤ satVar L m := by
  rw [satVar_lt10 L hL m hm]; omega

theorem satVar_pos (l m : Nat) (hl : l < 10) (hm : m < 10) : 0 < satVar l m := by
  rw [satVar_lt10 l hl m hm]; omega

theorem satVar_inj (L m m' : Nat) (hL : L < 10) (hm : m < 10) (hm' : m' < 10)
    (h : satVar L m = satVar L m') : m = m' := by
  rw [satVar_lt10 L hL m hm, satVar_lt10 L hL m' hm'] at h; omega

theorem bca_length (lands : List Land) (cost : List ManaSymbol) :
    (buildCastsArray lands cost).length = lands.length := by
  simp [buildCastsArray]

theorem bca_cons (a : Land) (as : List Land) (cost : List ManaSymbol) :
    buildCastsArray (a :: as) cost =
      (cost.map fun c => if tapsFor a c then 1 else 0) :: buildCastsArray as cost := rfl

theorem bca_getD (lands : List Land) (cost : List ManaSymbol) (l : Nat)
    (hl : l < lands.length) :
    (buildCastsArray lands cost).getD l [] =
      cost.map (fun c => if tapsFor (lands.getD l []) c then 1 else 0) := by
  unfold buildCastsArray
  rw [List.getD_eq_getElem _ _ (by simpa using hl), List.getElem_map,
    List.getD_eq_getElem _ _ hl]

theorem bca_entry (lands : List Land) (cost : List ManaSymbol) (l m : Nat)
    (hl : l < lands.length) (hm : m < cost.length) :
    ((buildCastsArray lands cost).getD l []).getD m 0 =
      if tapsFor (lands.getD l []) (cost.getD m "") then 1 else 0 := by
  rw [bca_getD _ _ _ hl, List.getD_eq_getElem _ _ (by simpa using hm),
    List.getElem_map, List.getD_eq_getElem _ _ hm]

theorem constraintA_cons (r0 : List Nat) (rest : List (List Nat)) :
    constraintA (r0 :: rest) = some (coverage (rest.length + 1) r0.length) := rfl

theorem constraintB_eq (arr : List (List Nat)) :
    constraintB arr = exclusivity arr.length (arr.headD []).length := rfl

theorem buildCustomConstraints_eq (arr : List (List Nat)) :
    buildCustomConstraints arr = customFam arr arr.length (arr.headD []).length := rfl

theorem satInstance_eq (lands : List Land) (cost : List ManaSymbol) (h : lands ≠ []) :
    satInstance lands cost =
      some (coverage lands.length cost.length ++ exclusivity lands.length cost.length
        ++ customFam (buildCastsArray lands cost) lands.length cost.length) := by
  match lands, h with
  | a :: as, _ =>
    show buildSATInstance _ = _
    rw [bca_cons]
    unfold buildSATInstance
    rw [constraintA_cons, constraintB_eq, buildCustomConstraints_eq]
    simp [bca_length, bca_cons]

theorem cnfSat_mem (v : Nat → Bool) (cs : List (List Int)) (h : cnfSat v cs = true)
    (c : List Int) (hc : c ∈ cs) : clauseSat v c = true := by
  unfold cnfSat at h; exact List.all_eq_true.1 h c hc

theorem coverage_mem_of (col L M : Nat) (hcol : col < M) :
    (List.range L).map (fun land => (satVar land col : Int)) ∈ coverage L M := by
  unfold coverage; exact List.mem_map.2 ⟨col, List.mem_range.2 hcol, rfl⟩

theorem exclusivity_mem_of (l m m' L M : Nat) (hl : l < L) (hm : m < m') (hm' : m' < M) :
    [-(satVar l m : Int), -(satVar l m' : Int)] ∈ exclusivity L M := by
  unfold exclusivity exclRow
  refine List.mem_flatMap.2 ⟨l, List.mem_range.2 hl, ?_⟩
  refine List.mem_flatMap.2 ⟨m, List.mem_range.2 (lt_trans hm hm'), ?_⟩
  refine List.mem_filterMap.2 ⟨m', ?_, ?_⟩
  · rw [List.mem_range']
    exact ⟨m' - (m + 1), by omega, by omega⟩
  · rw [if_neg (by omega)]

theorem customFam_mem_of (arr : List (List Nat)) (l L M : Nat) (hl : l < L)
    (hne : customRow arr l M ≠ []) : customRow arr l M ∈ customFam arr L M := by
  unfold customFam
  exact List.mem_filterMap.2 ⟨l, List.mem_range.2 hl, by rw [if_neg hne]⟩

theorem coverage_mem (c : List Int) (L M : Nat) (h : c ∈ coverage L M) :
    ∃ col, col < M ∧ c = (List.range L).map (fun land => (satVar land col : Int)) := by
  unfold coverage at h
  obtain ⟨col, hcol, rfl⟩ := List.mem_map.1 h
  exact ⟨col, List.mem_range.1 hcol, rfl⟩

theorem exclusivity_mem (c : List Int) (L M : Nat) (h : c ∈ exclusivity L M) :
    ∃ l m m', l < L ∧ m < M ∧ m' < M ∧ m < m' ∧
      c = [-(satVar l m : Int), -(satVar l m' : Int)] := by
  unfold exclusivity exclRow at h
  obtain ⟨l, hl, h⟩ := List.mem_flatMap.1 h
  obtain ⟨m, hm, h⟩ := List.mem_flatMap.1 h
  obtain ⟨i, hi, heq⟩ := List.mem_filterMap.1 h
  rw [List.mem_range] at hl hm
  rw [List.mem_range'] at hi
  obtain ⟨k, hk, rfl⟩ := hi
  rw [if_neg (by omega)] at heq
  obtain rfl := Option.some.inj heq
  exact ⟨l, m, m + 1 + 1 * k, hl, hm, by omega, by omega, rfl⟩

theorem customRow_mem (arr : List (List Nat)) (l M : Nat) (lit : Int)
    (h : lit ∈ customRow arr l M) :
    ∃ m, m < M ∧ (arr.getD l []).getD m 0 = 1 ∧ lit = (satVar l m : Int) := by
  unfold customRow at h
  obtain ⟨m, hm, heq⟩ := List.mem_filterMap.1 h
  rw [List.mem_range] at hm
  by_cases hc : (arr.getD l []).getD m 0 = 1
  · rw [if_pos hc] at heq; exact ⟨m, hm, hc, (Option.some.inj heq).symm⟩
  · rw [if_neg hc] at heq; simp at heq

theorem customRow_mem_of (arr : List (List Nat)) (l m M : Nat) (hm : m < M)
    (hc : (arr.getD l []).getD m 0 = 1) : (satVar l m : Int) ∈ customRow arr l M := by
  unfold customRow
  exact List.mem_filterMap.2 ⟨m, List.mem_range.2 hm, by rw [if_pos hc]⟩

theorem customFam_mem (arr : List (List Nat)) (c : List Int) (L M : Nat)
    (h : c ∈ customFam arr L M) :
    ∃ l, l < L ∧ customRow arr l M ≠ [] ∧ c = customRow arr l M := by
  unfold customFam at h
  obtain ⟨l, hl, heq⟩ := List.mem_filterMap.1 h
  rw [List.mem_range] at hl
  by_cases hc : customRow arr l M = []
  · rw [if_pos hc] at heq; simp at heq
  · rw [if_neg hc] at heq; exact ⟨l, hl, hc, (Option.some.inj heq).symm⟩

theorem litSat_posLit (v : Nat → Bool) (n : Nat) (hn : 0 < n) :
    litSat v (n : Int) = v n := by
  unfold litSat
  rw [if_pos (by exact_mod_cast hn)]
  simp

theorem litSat_negLit (v : Nat → Bool) (n : Nat) (hn : 0 < n) :
    litSat v (-(n : Int)) = !(v n) := by
  unfold litSat
  rw [if_neg (by omega)]
  simp

theorem litSat_congr (v v' : Nat → Bool) (lit : Int)
    (h : v lit.natAbs = v' lit.natAbs) : litSat v lit = litSat v' lit := by
  unfold litSat
  by_cases h0 : 0 < lit
  · rw [if_pos h0, if_pos h0, show lit.toNat = lit.natAbs by omega, h]
  · rw [if_neg h0, if_neg h0, show (-lit).toNat = lit.natAbs by omega, h]

theorem clauseSat_congr (v v' : Nat → Bool) (c : List Int)
    (h : ∀ lit ∈ c, v lit.natAbs = v' lit.natAbs) :
    clauseSat v c = clauseSat v' c := by
  unfold clauseSat
  induction c with
  | nil => rfl
  | cons x xs ih =>
    rw [List.any_cons, List.any_cons, litSat_congr _ _ x (h x (by simp)),
      ih (fun lit hl => h lit (by simp [hl]))]

theorem inst_lit_bound (arr : List (List Nat)) (L M : Nat) (hL : L ≤ 10) (hM : M ≤ 10)
    (c : List Int)
    (hc : c ∈ coverage L M ++ exclusivity L M ++ customFam arr L M)
    (lit : Int) (hlit : lit ∈ c) : lit.natAbs < 100 + 10 * L := by
  rw [List.mem_append, List.mem_append] at hc
  rcases hc with (hc | hc) | hc
  · obtain ⟨col, hcol, rfl⟩ := coverage_mem c L M hc
    obtain ⟨l, hl, rfl⟩ := List.mem_map.1 hlit
    rw [List.mem_range] at hl
    rw [Int.natAbs_ofNat]
    exact satVar_ub l col L hl hL (lt_of_lt_of_le hcol hM)
  · obtain ⟨l, m, m', hl, hm, hm', hlt, rfl⟩ := exclusivity_mem c L M hc
    simp only [List.mem_cons, List.not_mem_nil, or_false] at hlit
    rcases hlit with rfl | rfl
    · rw [Int.natAbs_neg, Int.natAbs_ofNat]
      exact satVar_ub l m L hl hL (lt_of_lt_of_le hm hM)
    · rw [Int.natAbs_neg, Int.natAbs_ofNat]
      exact satVar_ub l m' L hl hL (lt_of_lt_of_le hm' hM)
  · obtain ⟨l, hl, _, rfl⟩ := customFam_mem arr c L M hc
    obtain ⟨m, hm, _, rfl⟩ := customRow_mem arr l M lit hlit
    rw [Int.natAbs_ofNat]
    exact satVar_ub l m L hl hL (lt_of_lt_of_le hm hM)

theorem cnfSat_congr (v v' : Nat → Bool) (cs : List (List Int))
    (h : ∀ c ∈ cs, ∀ lit ∈ c, v lit.natAbs = v' lit.natAbs) :
    cnfSat v cs = cnfSat v' cs := by
  unfold cnfSat
  induction cs with
  | nil => rfl
  | cons x xs ih =>
    rw [List.all_cons, List.all_cons, clauseSat_congr v v' x (h x (by simp)),
      ih (fun c hc lit hl => h c (by simp [hc]) lit hl)]

theorem exclRow_mem (c : List Int) (land M : Nat) (h : c ∈ exclRow land M) :
    ∃ m m', m < M ∧ m' < M ∧ m < m' ∧
      c = [-(satVar land m : Int), -(satVar land m' : Int)] := by
  unfold exclRow at h
  obtain ⟨m, hm, h⟩ := List.mem_flatMap.1 h
  obtain ⟨i, hi, heq⟩ := List.mem_filterMap.1 h
  rw [List.mem_range] at hm
  rw [List.mem_range'] at hi
  obtain ⟨k, hk, rfl⟩ := hi
  rw [if_neg (by omega)] at heq
  obtain rfl := Option.some.inj heq
  exact ⟨m, m + 1 + 1 * k, hm, by omega, by omega, rfl⟩

theorem exclRow_sat (v : Nat → Bool) (land M : Nat) (hland : land < 10) (hM : M ≤ 10)
    (h : ∀ m m', m < M → m' < M → m ≠ m' →
      ¬(v (satVar land m) = true ∧ v (satVar land m') = true)) :
    cnfSat v (exclRow land M) = true := by
  unfold cnfSat
  rw [List.all_eq_true]
  intro c hc
  obtain ⟨m, m', hm, hm', hlt, rfl⟩ := exclRow_mem c land M hc
  unfold clauseSat
  rw [List.any_cons, List.any_cons, List.any_nil,
    litSat_negLit v _ (satVar_pos land m hland (by omega)),
    litSat_negLit v _ (satVar_pos land m' hland (by omega))]
  have hone := h m m' hm hm' (by omega)
  cases hvm : v (satVar land m) <;> cases hvm' : v (satVar land m') <;> simp_all

theorem coverage_succ_sat (v : Nat → Bool) (L M : Nat)
    (h : cnfSat v (coverage L M) = true) :
    cnfSat v (coverage (L + 1) M) = true := by
  unfold cnfSat
  rw [List.all_eq_true]
  intro c hc
  obtain ⟨col, hcol, rfl⟩ := coverage_mem c (L + 1) M hc
  rw [List.range_succ, List.map_append]
  unfold clauseSat
  rw [List.any_append]
  have h1 := cnfSat_mem v (coverage L M) h _ (coverage_mem_of col L M hcol)
  unfold clauseSat at h1
  rw [h1, Bool.true_or]

theorem exclusivity_succ (L M : Nat) :
    exclusivity (L + 1) M = exclusivity L M ++ exclRow L M := by
  unfold exclusivity
  rw [List.range_succ, List.flatMap_append]
  simp

theorem customRow_congr (arr arr' : List (List Nat)) (land M : Nat)
    (h : arr.getD land [] = arr'.getD land []) :
    customRow arr land M = customRow arr' land M := by
  unfold customRow
  exact List.filterMap_congr (fun mana _ => by rw [h])

theorem getD_append_self (arr : List (List Nat)) (row : List Nat) :
    (arr ++ [row]).getD arr.length [] = row := by
  rw [List.getD_append_right _ _ _ _ (le_refl _)]
  simp

theorem customFam_succ (arr : List (List Nat)) (row : List Nat) (M : Nat) :
    customFam (arr ++ [row]) (arr.length + 1) M =
      customFam arr arr.length M ++
        (if customRow (arr ++ [row]) arr.length M = [] then []
         else [customRow (arr ++ [row]) arr.length M]) := by
  unfold customFam
  rw [List.range_succ, List.filterMap_append]
  congr 1
  · refine List.filterMap_congr (fun land hland => ?_)
    rw [customRow_congr (arr ++ [row]) arr land M
      (List.getD_append _ _ _ _ (List.mem_range.1 hland))]
  · by_cases hc : customRow (arr ++ [row]) arr.length M = [] <;>
      simp [List.filterMap_cons, hc]

theorem extendModel (lands : List Land) (cost : List ManaSymbol) (l : Land)
    (v w : Nat → Bool)
    (hL : lands.length + 1 ≤ 10) (hM : cost.length ≤ 10)
    (hv : cnfSat v (coverage lands.length cost.length
      ++ exclusivity lands.length cost.length
      ++ customFam (buildCastsArray lands cost) lands.length cost.length) = true)
    (hw1 : ∀ m m', m < cost.length → m' < cost.length → m ≠ m' →
      ¬(w (satVar lands.length m) = true ∧ w (satVar lands.length m') = true))
    (hw2 : customRow (buildCastsArray (lands ++ [l]) cost) lands.length cost.length = [] ∨
      clauseSat (fun n => if n < 100 + 10 * lands.length then v n else w n)
        (customRow (buildCastsArray (lands ++ [l]) cost) lands.length cost.length) = true) :
    cnfSat (fun n => if n < 100 + 10 * lands.length then v n else w n)
      (coverage (lands.length + 1) cost.length
        ++ exclusivity (lands.length + 1) cost.length
        ++ customFam (buildCastsArray (lands ++ [l]) cost)
            (lands.length + 1) cost.length) = true := by
  have hL9 : lands.length < 10 := by omega
  have harr' : buildCastsArray (lands ++ [l]) cost =
      buildCastsArray lands cost ++ [cost.map (fun c => if tapsFor l c then 1 else 0)] := by
    simp [buildCastsArray]
  have hlarr : (buildCastsArray lands cost).length = lands.length := bca_length lands cost
  have hagree : ∀ c ∈ coverage lands.length cost.length
      ++ exclusivity lands.length cost.length
      ++ customFam (buildCastsArray lands cost) lands.length cost.length,
      ∀ lit ∈ c,
        (fun n => if n < 100 + 10 * lands.length then v n else w n) lit.natAbs
          = v lit.natAbs := by
    intro c hc lit hlit
    exact if_pos (inst_lit_bound (buildCastsArray lands cost) lands.length cost.length
      (by omega) hM c hc lit hlit)
  have hsat : cnfSat (fun n => if n < 100 + 10 * lands.length then v n else w n)
      (coverage lands.length cost.length ++ exclusivity lands.length cost.length
        ++ customFam (buildCastsArray lands cost) lands.length cost.length) = true := by
    rw [cnfSat_congr _ v _ hagree]; exact hv
  unfold cnfSat at hsat ⊢
  rw [List.all_append, List.all_append, Bool.and_eq_true, Bool.and_eq_true] at hsat ⊢
  obtain ⟨⟨hcov, hexc⟩, hcus⟩ := hsat
  refine ⟨⟨?_, ?_⟩, ?_⟩
  · exact coverage_succ_sat _ lands.length cost.length hcov
  · rw [exclusivity_succ, List.all_append, Bool.and_eq_true]
    refine ⟨hexc, ?_⟩
    refine exclRow_sat _ lands.length cost.length hL9 hM (fun m m' hm hm' hne hcon => ?_)
    have hvm := hcon.1
    have hvm' := hcon.2
    rw [if_neg (by have := satVar_lb lands.length m hL9 (by omega); omega)] at hvm
    rw [if_neg (by have := satVar_lb lands.length m' hL9 (by omega); omega)] at hvm'
    exact hw1 m m' hm hm' hne ⟨hvm, hvm'⟩
  · rw [harr'] at hw2 ⊢
    rw [show lands.length + 1 = (buildCastsArray lands cost).length + 1 from by rw [hlarr],
      customFam_succ, List.all_append, Bool.and_eq_true]
    rw [hlarr]
    refine ⟨hcus, ?_⟩
    rcases hw2 with hc | hc
    · rw [if_pos hc]; rfl
    · rw [if_neg ?_]
      · rw [List.all_cons, List.all_nil, Bool.and_eq_true]
        exact ⟨hc, rfl⟩
      · intro heq
        rw [heq] at hc
        exact absurd hc (by simp [clauseSat])

/-- C6: for every lands list, cost list and additional land l, within the
single-digit index bound (the extended list still has at most 10 lands and the
cost at most 10 symbols), if isCastable(lands, cost) runs and returns true
then isCastable(lands ++ [l], cost) also runs and returns true: feasibility is
monotonic in the source set with the cost held fixed. -/
theorem isCastable_monotone (lands : List Land) (cost : List ManaSymbol) (l : Land)
    (hL : lands.length + 1 ≤ 10) (hM : cost.length ≤ 10)
    (h : isCastableTrue lands cost) : isCastableTrue (lands ++ [l]) cost := by
  obtain ⟨cs, hcs, v, hv⟩ := h
  have hne : lands ≠ [] := by
    intro heq
    subst heq
    cases (show (none : Option (List (List Int))) = some cs from hcs)
  rw [satInstance_eq lands cost hne] at hcs
  obtain rfl := (Option.some.inj hcs).symm
  have hinst' : satInstance (lands ++ [l]) cost =
      some (coverage (lands.length + 1) cost.length
        ++ exclusivity (lands.length + 1) cost.length
        ++ customFam (buildCastsArray (lands ++ [l]) cost)
            (lands.length + 1) cost.length) := by
    rw [satInstance_eq (lands ++ [l]) cost (by simp)]
    simp
  refine ⟨_, hinst', ?_⟩
  by_cases hcr : customRow (buildCastsArray (lands ++ [l]) cost)
      lands.length cost.length = []
  · exact ⟨_, extendModel lands cost l v (fun _ => false) hL hM hv
      (fun m m' _ _ _ hcon => by simp at hcon) (Or.inl hcr)⟩
  · obtain ⟨lit0, hlit0⟩ := List.exists_mem_of_ne_nil _ hcr
    obtain ⟨m0, hm0, hentry, rfl⟩ :=
      customRow_mem _ lands.length cost.length lit0 hlit0
    refine ⟨_, extendModel lands cost l v
      (fun n => n == satVar lands.length m0) hL hM hv ?_ (Or.inr ?_)⟩
    · intro m m' hm hm' hne' hcon
      have h1 : satVar lands.length m = satVar lands.length m0 := by
        simpa using hcon.1
      have h2 : satVar lands.length m' = satVar lands.length m0 := by
        simpa using hcon.2
      exact hne' (satVar_inj lands.length m m' (by omega) (by omega) (by omega)
        (h1.trans h2.symm))
    · unfold clauseSat
      rw [List.any_eq_true]
      refine ⟨_, hlit0, ?_⟩
      rw [litSat_posLit _ _ (satVar_pos lands.length m0 (by omega) (by omega))]
      show (if satVar lands.length m0 < 100 + 10 * lands.length then _ else _) = true
      rw [if_neg (by
        have := satVar_lb lands.length m0 (by omega) (by omega); omega)]
      simp

theorem filterMap_if_eq_map_filter {α : Type} (p : Nat → Bool) (f : Nat → α)
    (xs : List Nat) :
    xs.filterMap (fun m => if p m then some (f m) else none) = (xs.filter p).map f := by
  induction xs with
  | nil => rfl
  | cons x xs ih =>
    by_cases h : p x <;> simp [List.filterMap_cons, List.filter_cons, h, ih]

theorem two_of_one_lt {α : Type} (xs : List α) (h : 1 < xs.length) :
    ∃ a b rest, xs = a :: b :: rest := by
  cases xs with
  | nil => simp at h
  | cons a tail =>
    cases tail with
    | nil => simp at h
    | cons b rest => exact ⟨a, b, rest, rfl⟩

theorem filter_len_le_one (M : Nat) (q : Nat → Bool)
    (h : ∀ m m', m < M → m' < M → m ≠ m' → ¬(q m = true ∧ q m' = true)) :
    ((List.range M).filter q).length ≤ 1 := by
  by_contra hlen
  push_neg at hlen
  obtain ⟨a, b, rest, hfl⟩ := two_of_one_lt _ hlen
  have hnd : ((List.range M).filter q).Nodup := (List.nodup_range M).filter q
  rw [hfl] at hnd
  have hab : a ≠ b := by
    intro heq
    rw [List.nodup_cons] at hnd
    exact hnd.1 (heq ▸ List.mem_cons_self b rest)
  have ha : a ∈ (List.range M).filter q := by rw [hfl]; simp
  have hb : b ∈ (List.range M).filter q := by rw [hfl]; simp
  rw [List.mem_filter, List.mem_range] at ha hb
  exact h a b ha.1 hb.1 hab ⟨ha.2, hb.2⟩

theorem keysDistinct_cons (p : Nat × Nat) (ps : List (Nat × Nat)) :
    keysDistinct (p :: ps) = true ↔
      (∀ q ∈ ps, q.1 ≠ p.1) ∧ keysDistinct ps = true := by
  show ((!ps.any fun q => q.1 == p.1) && keysDistinct ps) = true ↔ _
  rw [Bool.and_eq_true, Bool.not_eq_true', List.any_eq_false]
  constructor
  · exact fun ⟨h1, h2⟩ => ⟨fun q hq => by simpa using h1 q hq, h2⟩
  · exact fun ⟨h1, h2⟩ => ⟨fun q hq => by simpa using h1 q hq, h2⟩

theorem keysDistinct_append (xs ys : List (Nat × Nat)) :
    keysDistinct (xs ++ ys) = true ↔
      keysDistinct xs = true ∧ keysDistinct ys = true ∧
        ∀ p ∈ xs, ∀ q ∈ ys, p.1 ≠ q.1 := by
  induction xs with
  | nil => simp [keysDistinct]
  | cons x xs ih =>
    rw [List.cons_append, keysDistinct_cons, keysDistinct_cons, ih]
    constructor
    · rintro ⟨h1, h2, h3, h4⟩
      refine ⟨⟨fun q hq => h1 q (List.mem_append.2 (Or.inl hq)), h2⟩, h3, ?_⟩
      intro p hp q hq
      rcases List.mem_cons.1 hp with rfl | hp
      · exact (h1 q (List.mem_append.2 (Or.inr hq))).symm
      · exact h4 p hp q hq
    · rintro ⟨⟨h1, h2⟩, h3, h4⟩
      refine ⟨?_, h2, h3, fun p hp q hq => h4 p (by simp [hp]) q hq⟩
      intro q hq
      rcases List.mem_append.1 hq with hq | hq
      · exact h1 q hq
      · exact fun heq => h4 x (by simp) q hq heq.symm

theorem keysDistinct_flatMap (LS : List Nat) (seg : Nat → List (Nat × Nat))
    (hnd : LS.Nodup) (hfst : ∀ l ∈ LS, ∀ p ∈ seg l, p.1 = l)
    (hlen : ∀ l ∈ LS, (seg l).length ≤ 1) :
    keysDistinct (LS.flatMap seg) = true := by
  induction LS with
  | nil => rfl
  | cons l LS ih =>
    rw [List.flatMap_cons]
    refine (keysDistinct_append _ _).2 ⟨?_, ?_, ?_⟩
    · have h1 := hlen l (by simp)
      rcases hseg : seg l with _ | ⟨p, _ | ⟨q, rest⟩⟩
      · rfl
      · rfl
      · rw [hseg] at h1; simp at h1
    · rw [List.nodup_cons] at hnd
      exact ih hnd.2 (fun l' hl' => hfst l' (by simp [hl']))
        (fun l' hl' => hlen l' (by simp [hl']))
    · intro p hp q hq
      obtain ⟨l', hl', hq'⟩ := List.mem_flatMap.1 hq
      rw [hfst l (by simp) p hp, hfst l' (by simp [hl']) q hq']
      rw [List.nodup_cons] at hnd
      intro heq
      exact hnd.1 (heq ▸ hl')

theorem mem_truePairs (L M : Nat) (v : Nat → Bool) (p : Nat × Nat) :
    p ∈ truePairs L M v ↔ p.1 < L ∧ p.2 < M ∧ v (satVar p.1 p.2) = true := by
  unfold truePairs
  rw [List.mem_flatMap]
  constructor
  · rintro ⟨l, hl, hp⟩
    obtain ⟨m, hm, heq⟩ := List.mem_filterMap.1 hp
    rw [List.mem_range] at hl hm
    by_cases hv : v (satVar l m) = true
    · rw [if_pos hv] at heq
      obtain rfl := (Option.some.inj heq).symm
      exact ⟨hl, hm, hv⟩
    · rw [if_neg hv] at heq; simp at heq
  · rintro ⟨h1, h2, h3⟩
    refine ⟨p.1, List.mem_range.2 h1, List.mem_filterMap.2 ⟨p.2, List.mem_range.2 h2, ?_⟩⟩
    rw [if_pos h3]

theorem dictSet_fresh (d : List (Nat × Nat)) (k w : Nat)
    (h : ∀ p ∈ d, p.1 ≠ k) : dictSet d k w = d ++ [(k, w)] := by
  unfold dictSet
  rw [if_neg ?_]
  intro hc
  obtain ⟨p, hp, hpk⟩ := List.any_eq_true.1 hc
  exact h p hp (by simpa using hpk)

theorem foldl_dictSet_fresh (ps : List (Nat × Nat)) (d : List (Nat × Nat))
    (h : keysDistinct (d ++ ps) = true) :
    ps.foldl (fun acc p => dictSet acc p.1 p.2) d = d ++ ps := by
  induction ps generalizing d with
  | nil => simp
  | cons p ps ih =>
    rw [List.foldl_cons]
    have hcross := ((keysDistinct_append d (p :: ps)).1 h).2.2
    rw [dictSet_fresh d p.1 p.2 (fun q hq => hcross q hq p (by simp))]
    have h2 : keysDistinct ((d ++ [p]) ++ ps) = true := by
      rw [List.append_assoc]
      simpa using h
    rw [ih (d ++ [p]) h2]
    simp

theorem modelList_filter_pos (L M : Nat) (v : Nat → Bool) (hL : L ≤ 10) (hM : M ≤ 10) :
    (modelList L M v).filter (fun i => decide (0 < i)) =
      (truePairs L M v).map (fun p => (satVar p.1 p.2 : Int)) := by
  unfold modelList truePairs
  rw [List.filter_flatMap, List.map_flatMap]
  refine List.flatMap_congr (fun l hl => ?_)
  rw [List.mem_range] at hl
  rw [List.filter_map, filterMap_if_eq_map_filter (fun m => v (satVar l m))
    (fun m => (l, m)) (List.range M), List.map_map]
  have hfil : (List.range M).filter
        ((fun i => decide ((0 : Int) < i)) ∘ fun m =>
          if v (satVar l m) then (satVar l m : Int) else -(satVar l m : Int))
      = (List.range M).filter (fun m => v (satVar l m)) := by
    refine List.filter_congr (fun m hm => ?_)
    rw [List.mem_range] at hm
    have hpos : 0 < satVar l m := satVar_pos l m (by omega) (by omega)
    by_cases hv : v (satVar l m) = true
    · simp [Function.comp, hv]; omega
    · rw [Bool.not_eq_true] at hv
      simp [Function.comp, hv]
  rw [hfil]
  refine List.map_congr_left (fun m hm => ?_)
  rw [List.mem_filter] at hm
  simp [Function.comp, hm.2]

theorem optFold_decode (ps : List (Nat × Nat)) (d : List (Nat × Nat))
    (h : ∀ p ∈ ps, p.1 < 10 ∧ p.2 < 10) :
    (ps.map (fun p => (satVar p.1 p.2 : Int))).foldl
      (fun od c =>
        od.bind (fun dd =>
          ((natStr c.toNat).get? 1).bind (fun land =>
            ((natStr c.toNat).get? 2).map (fun mana => dictSet dd land mana))))
      (some d)
      = some (ps.foldl (fun dd p => dictSet dd p.1 p.2) d) := by
  induction ps generalizing d with
  | nil => rfl
  | cons p ps ih =>
    rw [List.map_cons, List.foldl_cons, List.foldl_cons]
    have hp := h p (by simp)
    have hstep : (some d).bind (fun dd =>
        ((natStr ((satVar p.1 p.2 : Int)).toNat).get? 1).bind (fun land =>
          ((natStr ((satVar p.1 p.2 : Int)).toNat).get? 2).map
            (fun mana => dictSet dd land mana)))
        = some (dictSet d p.1 p.2) := by
      rw [Int.toNat_ofNat, natStr_satVar p.1 hp.1 p.2 hp.2]
      rfl
    rw [hstep]
    exact ih (dictSet d p.1 p.2) (fun q hq => h q (by simp [hq]))

theorem deriveLands_modelList (lands : List Land) (cost : List ManaSymbol)
    (v : Nat → Bool) (hL : lands.length ≤ 10) (hM : cost.length ≤ 10) :
    deriveLands lands cost (modelList lands.length cost.length v) =
      some ((truePairs lands.length cost.length v).foldl
        (fun dd p => dictSet dd p.1 p.2) []) := by
  unfold deriveLands
  rw [modelList_filter_pos lands.length cost.length v hL hM]
  refine optFold_decode _ [] (fun p hp => ?_)
  have := (mem_truePairs lands.length cost.length v p).1 hp
  exact ⟨by omega, by omega⟩

theorem model_excl_pair (lands : List Land) (cost : List ManaSymbol) (v : Nat → Bool)
    (hL : lands.length ≤ 10) (hM : cost.length ≤ 10)
    (hv : cnfSat v (coverage lands.length cost.length
      ++ exclusivity lands.length cost.length
      ++ customFam (buildCastsArray lands cost) lands.length cost.length) = true)
    (l m m' : Nat) (hl : l < lands.length) (hm : m < m') (hm' : m' < cost.length) :
    ¬(v (satVar l m) = true ∧ v (satVar l m') = true) := by
  have hcl := cnfSat_mem v _ hv _ (List.mem_append.2 (Or.inl (List.mem_append.2
    (Or.inr (exclusivity_mem_of l m m' lands.length cost.length hl hm hm')))))
  unfold clauseSat at hcl
  rw [List.any_cons, List.any_cons, List.any_nil,
    litSat_negLit v _ (satVar_pos l m (by omega) (by omega)),
    litSat_negLit v _ (satVar_pos l m' (by omega) (by omega))] at hcl
  intro hcon
  rw [hcon.1, hcon.2] at hcl
  simp at hcl

theorem model_at_most_one (lands : List Land) (cost : List ManaSymbol) (v : Nat → Bool)
    (hL : lands.length ≤ 10) (hM : cost.length ≤ 10)
    (hv : cnfSat v (coverage lands.length cost.length
      ++ exclusivity lands.length cost.length
      ++ customFam (buildCastsArray lands cost) lands.length cost.length) = true)
    (l m m' : Nat) (hl : l < lands.length) (hm : m < cost.length)
    (hm' : m' < cost.length) (hne : m ≠ m') :
    ¬(v (satVar l m) = true ∧ v (satVar l m') = true) := by
  rcases Nat.lt_or_ge m m' with hlt | hge
  · exact model_excl_pair lands cost v hL hM hv l m m' hl hlt hm'
  · have hlt : m' < m := by omega
    intro hcon
    exact model_excl_pair lands cost v hL hM hv l m' m hl hlt hm ⟨hcon.2, hcon.1⟩

theorem model_custom (lands : List Land) (cost : List ManaSymbol) (v : Nat → Bool)
    (hL : lands.length ≤ 10) (hM : cost.length ≤ 10)
    (hv : cnfSat v (coverage lands.length cost.length
      ++ exclusivity lands.length cost.length
      ++ customFam (buildCastsArray lands cost) lands.length cost.length) = true)
    (l : Nat) (hl : l < lands.length)
    (hne : customRow (buildCastsArray lands cost) l cost.length ≠ []) :
    ∃ m, m < cost.length ∧
      ((buildCastsArray lands cost).getD l []).getD m 0 = 1 ∧
      v (satVar l m) = true := by
  have hcl := cnfSat_mem v _ hv _ (List.mem_append.2
    (Or.inr (customFam_mem_of (buildCastsArray lands cost) l lands.length
      cost.length hl hne)))
  unfold clauseSat at hcl
  obtain ⟨lit, hlit, hsat⟩ := List.any_eq_true.1 hcl
  obtain ⟨m, hm, hentry, rfl⟩ := customRow_mem _ l cost.length lit hlit
  rw [litSat_posLit v _ (satVar_pos l m (by omega) (by omega))] at hsat
  exact ⟨m, hm, hentry, hsat⟩

theorem model_dict_spec (lands : List Land) (cost : List ManaSymbol)
    (cs : List (List Int)) (v : Nat → Bool)
    (hL : lands.length ≤ 10) (hM : cost.length ≤ 10)
    (hcs : satInstance lands cost = some cs) (hv : cnfSat v cs = true) :
    atMostOnePerLand lands.length cost.length v = true ∧
    deriveLands lands cost (modelList lands.length cost.length v) =
      some (truePairs lands.length cost.length v) ∧
    keysDistinct (truePairs lands.length cost.length v) = true ∧
    compatOK lands cost (truePairs lands.length cost.length v) = true ∧
    (truePairs lands.length cost.length v).length =
      ((modelList lands.length cost.length v).filter (fun i => decide (0 < i))).length := by
  have hne : lands ≠ [] := by
    intro heq
    subst heq
    cases (show (none : Option (List (List Int))) = some cs from hcs)
  rw [satInstance_eq lands cost hne] at hcs
  obtain rfl := (Option.some.inj hcs).symm
  have hamo := model_at_most_one lands cost v hL hM hv
  have hkd : keysDistinct (truePairs lands.length cost.length v) = true := by
    refine keysDistinct_flatMap (List.range lands.length)
      (fun l => (List.range cost.length).filterMap
        (fun m => if v (satVar l m) then some (l, m) else none))
      (List.nodup_range lands.length) ?_ ?_
    · intro l _ p hp
      obtain ⟨m, _, heq⟩ := List.mem_filterMap.1 hp
      by_cases hvm : v (satVar l m) = true
      · rw [if_pos hvm] at heq
        obtain rfl := (Option.some.inj heq).symm
        rfl
      · rw [if_neg hvm] at heq; simp at heq
    · intro l hl
      show ((List.range cost.length).filterMap
        (fun m => if v (satVar l m) then some (l, m) else none)).length ≤ 1
      rw [filterMap_if_eq_map_filter (fun m => v (satVar l m))
        (fun m => (l, m)) (List.range cost.length), List.length_map]
      exact filter_len_le_one cost.length _
        (fun m m' hm hm' hne' =>
          hamo l m m' (List.mem_range.1 hl) hm hm' hne')
  have hder : deriveLands lands cost (modelList lands.length cost.length v) =
      some (truePairs lands.length cost.length v) := by
    rw [deriveLands_modelList lands cost v hL hM,
      foldl_dictSet_fresh _ [] (by simpa using hkd)]
    simp
  refine ⟨?_, hder, hkd, ?_, ?_⟩
  · unfold atMostOnePerLand
    rw [List.all_eq_true]
    intro l hl
    rw [List.mem_range] at hl
    exact decide_eq_true (filter_len_le_one cost.length _
      (fun m m' hm hm' hne' => hamo l m m' hl hm hm' hne'))
  · unfold compatOK
    rw [List.all_eq_true]
    intro p hp
    obtain ⟨hp1, hp2, hp3⟩ := (mem_truePairs lands.length cost.length v p).1 hp
    by_cases hany : (cost.any fun c => tapsFor (lands.getD p.1 []) c) = true
    · have hrow : customRow (buildCastsArray lands cost) p.1 cost.length ≠ [] := by
        obtain ⟨c, hc, htaps⟩ := List.any_eq_true.1 hany
        obtain ⟨j, hj, rfl⟩ := List.mem_iff_getElem.1 hc
        refine List.ne_nil_of_mem (customRow_mem_of _ p.1 j cost.length hj ?_)
        rw [bca_entry lands cost p.1 j hp1 hj, List.getD_eq_getElem _ _ hj,
          if_pos htaps]
      obtain ⟨m0, hm0, hentry0, hv0⟩ :=
        model_custom lands cost v hL hM hv p.1 hp1 hrow
      have hpm : p.2 = m0 := by
        by_contra hne'
        exact model_at_most_one lands cost v hL hM hv p.1 p.2 m0 hp1 hp2 hm0 hne'
          ⟨hp3, hv0⟩
      have htp2 : tapsFor (lands.getD p.1 []) (cost.getD p.2 "") = true := by
        subst hpm
        rw [bca_entry lands cost p.1 p.2 hp1 hp2] at hentry0
        by_cases ht : tapsFor (lands.getD p.1 []) (cost.getD p.2 "") = true
        · exact ht
        · rw [Bool.not_eq_true] at ht
          rw [if_neg (by rw [ht]; exact Bool.false_ne_true)] at hentry0
          exact absurd hentry0 (by omega)
      rw [htp2, Bool.or_true]
    · rw [Bool.not_eq_true] at hany
      rw [hany]
      rfl
  · rw [modelList_filter_pos lands.length cost.length v hL hM, List.length_map]


/-- C1: the claim states that the SAT-based solver and the set/SDR-based
solver agree on every in-bound input.  The code violates it: on
lands = [["W"]], cost = ["B"] the coverage clause of constraintA lists the
variable of the incompatible land, so isCastable terminates with True while
ManaToSetSolver computes .sol = False. -/
theorem sat_vs_set_divergence :
    isCastableTrue [["W"]] ["B"] ∧ manaToSetSolverSol [["W"]] ["B"] = some false := by
  constructor
  · exact ⟨[[(100 : Int)]], by decide, v100, by decide⟩
  · decide

/-- C2: the claim states that the coverage clause for position p contains
x(s, p) exactly for the sources s with matrix entry 1, and that a position
with an all-zero column makes isCastable return false.  The code violates
both: with lands = [["W"]], cost = ["B"] the matrix is [[0]], yet constraintA
emits the clause [x(0,0)] for the incompatible source, and isCastable
terminates with True. -/
theorem coverage_clause_unfiltered :
    buildCastsArray [["W"]] ["B"] = [[0]] ∧
    constraintA [[0]] = some [[(satVar 0 0 : Int)]] ∧
    isCastableTrue [["W"]] ["B"] := by
  refine ⟨by decide, by decide, ?_⟩
  exact ⟨[[(100 : Int)]], by decide, v100, by decide⟩

/-- C3 counterexample: a satisfying model of the instance built from
lands = [["W"]], cost = ["B"] maps source 0 to position 0 although
tapsFor(["W"], "B") is false, refuting the claim that every extracted
(source, position) pair satisfies the compatibility predicate. -/
theorem deriveLands_incompatible_pair :
    satInstance [["W"]] ["B"] = some [[(100 : Int)]] ∧
    cnfSat v100 [[(100 : Int)]] = true ∧
    deriveLands [["W"]] ["B"] (modelList 1 1 v100) = some [(0, 0)] ∧
    tapsFor ["W"] "B" = false := by decide

/-- C3 amended: for every satisfying model of an in-bound ManaToSAT instance,
deriveLands succeeds and returns the dictionary of true (source, position)
pairs; its keys are pairwise distinct (so distinct positions are covered by
distinct sources); and every mapped source that taps for at least one cost
symbol is mapped to a position it taps for — a source with no compatible
position, however, may be mapped to an arbitrary (incompatible) position. -/
theorem deriveLands_amended (lands : List Land) (cost : List ManaSymbol)
    (cs : List (List Int)) (v : Nat → Bool)
    (hL : lands.length ≤ 10) (hM : cost.length ≤ 10)
    (hcs : satInstance lands cost = some cs) (hv : cnfSat v cs = true) :
    deriveLands lands cost (modelList lands.length cost.length v) =
      some (truePairs lands.length cost.length v) ∧
    keysDistinct (truePairs lands.length cost.length v) = true ∧
    compatOK lands cost (truePairs lands.length cost.length v) = true := by
  obtain ⟨_, h2, h3, h4, _⟩ := model_dict_spec lands cost cs v hL hM hcs hv
  exact ⟨h2, h3, h4⟩

/-- C3 witness: the amended theorem applied to the concrete instance built
from lands = [["B"]], cost = ["B"] and the model making x(0,0) true. -/
theorem deriveLands_amended_witness :
    deriveLands [["B"]] ["B"] (modelList 1 1 v100) = some (truePairs 1 1 v100) ∧
    keysDistinct (truePairs 1 1 v100) = true ∧
    compatOK [["B"]] ["B"] (truePairs 1 1 v100) = true :=
  deriveLands_amended [["B"]] ["B"] [[(100 : Int)], [(100 : Int)]] v100
    (by decide) (by decide) (by decide) (by decide)

/-- C4: the claim states that the matrix builder and the ManaToSetSolver
pipeline are total, an empty cost yielding a feasible empty assignment.  The
code violates it: getSets indexes arr[0] of the empty matrix and getResult
indexes sets[0] of the empty set list, so both empty-input runs raise
IndexError (buildCastsArray itself is total). -/
theorem setSolver_crashes_on_empty :
    manaToSetSolverSol [] [] = none ∧ manaToSetSolverSol [["W"]] [] = none ∧
    buildCastsArray [] [] = [] ∧ buildCastsArray [["W"]] [] = [[]] := by decide

/-- C5: the claim states that isCastable(lands, []) returns true for every
lands list, including lands = [].  The code violates the empty-lands case:
constraintA indexes arr[0] of the empty matrix and raises IndexError; for a
nonempty lands list the clause set is empty and isCastable does return
true. -/
theorem isCastable_crashes_on_empty_lands :
    isCastable [] [] = none ∧ isCastableTrue [["W"]] [] := by
  exact ⟨rfl, ⟨[], rfl, fun _ => false, rfl⟩⟩

/-- C6 witness: monotonicity applied to lands = [["B"]], cost = ["B"],
extended by the land ["W"]. -/
theorem isCastable_monotone_witness : isCastableTrue [["B"], ["W"]] ["B"] :=
  isCastable_monotone [["B"]] ["B"] ["W"] (by decide) (by decide)
    ⟨[[(100 : Int)], [(100 : Int)]], by decide, v100, by decide⟩

/-- C7: buildCastsArray(lands, cost) has exactly len(lands) rows, each of
length len(cost); every entry is 0 or 1; and the entry at (i, j) is 1 exactly
when cost[j] is a member of lands[i] or cost[j] is the generic symbol "1". -/
theorem buildCastsArray_spec (lands : List Land) (cost : List ManaSymbol)
    (i j : Nat) (hi : i < lands.length) (hj : j < cost.length) :
    (buildCastsArray lands cost).length = lands.length ∧
    ((buildCastsArray lands cost).getD i []).length = cost.length ∧
    (((buildCastsArray lands cost).getD i []).getD j 0 = 0 ∨
      ((buildCastsArray lands cost).getD i []).getD j 0 = 1) ∧
    (((buildCastsArray lands cost).getD i []).getD j 0 = 1 ↔
      (cost.getD j "" ∈ lands.getD i [] ∨ cost.getD j "" = "1")) := by
  refine ⟨bca_length lands cost, ?_, ?_, ?_⟩
  · rw [bca_getD lands cost i hi, List.length_map]
  · rw [bca_entry lands cost i j hi hj]
    by_cases h : tapsFor (lands.getD i []) (cost.getD j "") = true
    · rw [if_pos h]; right; rfl
    · rw [if_neg h]; left; rfl
  · rw [bca_entry lands cost i j hi hj]
    constructor
    · intro hone
      by_cases h1 : cost.getD j "" ∈ lands.getD i []
      · exact Or.inl h1
      · by_cases h2 : cost.getD j "" = "1"
        · exact Or.inr h2
        · rw [show tapsFor (lands.getD i []) (cost.getD j "") = false from by
            unfold tapsFor; rw [if_neg h1, if_neg h2]] at hone
          simp at hone
    · intro hor
      have ht : tapsFor (lands.getD i []) (cost.getD j "") = true := by
        unfold tapsFor
        rcases hor with h1 | h2
        · rw [if_pos h1]
        · by_cases h1 : cost.getD j "" ∈ lands.getD i []
          · rw [if_pos h1]
          · rw [if_neg h1, if_pos h2]
      rw [ht]
      rfl

/-- C7 witness: the shape and content facts at lands = [["B", "W"]],
cost = ["W", "R"], i = 0, j = 1. -/
theorem buildCastsArray_spec_witness :
    (buildCastsArray [["B", "W"]] ["W", "R"]).length = 1 ∧
    ((buildCastsArray [["B", "W"]] ["W", "R"]).getD 0 []).length = 2 ∧
    (((buildCastsArray [["B", "W"]] ["W", "R"]).getD 0 []).getD 1 0 = 0 ∨
      ((buildCastsArray [["B", "W"]] ["W", "R"]).getD 0 []).getD 1 0 = 1) ∧
    (((buildCastsArray [["B", "W"]] ["W", "R"]).getD 0 []).getD 1 0 = 1 ↔
      (["W", "R"].getD 1 "" ∈ [["B", "W"]].getD 0 [] ∨ ["W", "R"].getD 1 "" = "1")) :=
  buildCastsArray_spec [["B", "W"]] ["W", "R"] 0 1 (by decide) (by decide)

/-- C8: the claim states that inputs beyond the single-decimal-digit bound
are rejected before any clause is built.  The code violates it: with 12 lands
and an 11-symbol cost the SAT instance is still built (no rejection path
exists), while the digit-concatenation encoding collides: the variable of
(land 1, position 10) and the variable of (land 11, position 0) are both
1110. -/
theorem no_bound_check_collision :
    satVar 1 10 = 1110 ∧ satVar 11 0 = 1110 ∧
    (satInstance (List.replicate 12 ["W"]) (List.replicate 11 "W")).isSome = true := by
  refine ⟨by decide, by decide, ?_⟩
  rw [satInstance_eq _ _ (by decide)]
  rfl

/-- C9 counterexample: the compatibility predicate does not implement the
claimed wildcard rule for generic-producing sources: tapsFor(["1"], "B") is
falsy and the matrix entry for that pair is 0. -/
theorem generic_land_not_compatible :
    tapsFor ["1"] "B" = false ∧ buildCastsArray [["1"]] ["B"] = [[0]] := by decide

/-- C9 amended: isCastable([["1"]], ["B"]) does terminate with True, but not
because a generic-producing source covers a colored symbol — the predicate
rejects the pair and the matrix is [[0]]; the result is true solely because
constraintA's coverage clause [x(0,0)] ignores the matrix. -/
theorem generic_land_castable :
    isCastableTrue [["1"]] ["B"] ∧ satInstance [["1"]] ["B"] = some [[(satVar 0 0 : Int)]] := by
  refine ⟨?_, by decide⟩
  exact ⟨[[(100 : Int)]], by decide, v100, by decide⟩

/-- C10: in every satisfying model of an in-bound ManaToSAT instance each
land index occurs in at most one true variable, so deriveLands assigns each
source at most one position, never overwrites a dictionary entry (its length
equals the number of positive literals), and its keys are pairwise distinct;
and, as no clause forbids it, a model may commit several sources to the same
position — witnessed by lands = [["W"], ["W"]], cost = ["W"], whose
satisfying model makes both x(0,0) and x(1,0) true and whose extracted
dictionary maps both sources to position 0. -/
theorem model_per_land_unique :
    (∀ (lands : List Land) (cost : List ManaSymbol) (cs : List (List Int))
      (v : Nat → Bool),
      lands.length ≤ 10 → cost.length ≤ 10 →
      satInstance lands cost = some cs → cnfSat v cs = true →
      atMostOnePerLand lands.length cost.length v = true ∧
      deriveLands lands cost (modelList lands.length cost.length v) =
        some (truePairs lands.length cost.length v) ∧
      keysDistinct (truePairs lands.length cost.length v) = true ∧
      (truePairs lands.length cost.length v).length =
        ((modelList lands.length cost.length v).filter
          (fun i => decide (0 < i))).length)
    ∧ satInstance [["W"], ["W"]] ["W"] =
        some [[(satVar 0 0 : Int), (satVar 1 0 : Int)],
          [(satVar 0 0 : Int)], [(satVar 1 0 : Int)]]
    ∧ cnfSat vShare [[(100 : Int), 110], [100], [110]] = true
    ∧ deriveLands [["W"], ["W"]] ["W"] (modelList 2 1 vShare) =
        some [(0, 0), (1, 0)] := by
  refine ⟨?_, by decide, by decide, by decide⟩
  intro lands cost cs v hL hM hcs hv
  obtain ⟨h1, h2, h3, _, h5⟩ := model_dict_spec lands cost cs v hL hM hcs hv
  exact ⟨h1, h2, h3, h5⟩

/-- C10 witness: the universal part applied to the concrete instance built
from lands = [["W"]], cost = ["W"] and the model making x(0,0) true. -/
theorem model_per_land_unique_witness :
    atMostOnePerLand 1 1 v100 = true ∧
    deriveLands [["W"]] ["W"] (modelList 1 1 v100) = some (truePairs 1 1 v100) ∧
    keysDistinct (truePairs 1 1 v100) = true ∧
    (truePairs 1 1 v100).length =
      ((modelList 1 1 v100).filter (fun i => decide (0 < i))).length :=
  (model_per_land_unique.1 [["W"]] ["W"] [[(100 : Int)], [(100 : Int)]] v100
    (by decide) (by decide) (by decide) (by decide))
